import Mathlib

/-!
Shallow embedding of the omega video-acquisition pipeline
(`omega/miner_utils.py` and `omega/video_utils.py`).

External effects — the yt-dlp transfer, the ffmpeg probe and trim, the
embedding model — are modelled as explicit environment data supplied to
the functions.  Temporary file handles (`tempfile.NamedTemporaryFile`)
are modelled by a handle-allocation state so that resource-release
properties can be stated.  Completion order of thread-pool futures
(`concurrent.futures.as_completed`) is modelled by list order.
-/

namespace Omega

/-- Modelled from the spec: `omega/constants.py` is not under `src/`.
The spec fixes the missing-duration default at five minutes (300 s). -/
def FIVE_MINUTES : Nat := 300

/-- Modelled from the spec: `omega/constants.py` is not under `src/`.
The spec requires a fixed positive hard maximum clip length
(`max_clip_length`); no claim depends on the exact value. -/
def MAX_VIDEO_LENGTH : Nat := 120

/-- Temporary-file handle bookkeeping: `next` counts handles ever created
(each `tempfile.NamedTemporaryFile` call allocates a fresh one), `closed`
records every `.close()` call, in order and with multiplicity. -/
structure HState where
  next : Nat
  closed : List Nat
deriving DecidableEq

/-- Create a fresh temporary file handle. -/
def alloc (s : HState) : Nat × HState :=
  (s.next, ⟨s.next + 1, s.closed⟩)

/-- Record a `.close()` call on handle `h`. -/
def hclose (h : Nat) (s : HState) : HState :=
  ⟨s.next, h :: s.closed⟩

/-- Handles that have been allocated but never closed. -/
def openHandles (s : HState) : List Nat :=
  (List.range s.next).filter (fun h => ! s.closed.contains h)

/-- Every allocated handle has been closed exactly once, and only
allocated handles were ever closed. -/
def releasedExactlyOnce (s : HState) : Prop :=
  s.closed.Nodup ∧ ∀ h, h ∈ s.closed ↔ h < s.next

namespace video_utils

/-- Zero-pad a number to two digits, as Python's `f"{n:02}"` does. -/
def pad2 (n : Nat) : String :=
  if n < 10 then "0" ++ toString n else toString n

/-- `seconds_to_str` from `video_utils.py` lines 25–29. -/
def seconds_to_str (seconds : Nat) : String :=
  let hours := seconds / 3600
  let minutes := (seconds % 3600) / 60
  let secs := seconds % 60
  pad2 hours ++ ":" ++ pad2 minutes ++ ":" ++ pad2 secs

/-- `clip_video` from `video_utils.py` lines 32–41: allocates the output
temporary file, then runs the ffmpeg stream-copy trim.  The ffmpeg
invocation is external; `transcodeFails` says whether `.run` raises.
The source has no `try`/`finally`: when the transcode raises, the
function neither closes the fresh handle nor returns it (`none` models
the exception propagating). -/
def clip_video (_video_path : String) (_start _stop : Nat) (transcodeFails : Bool)
    (s : HState) : Option Nat × HState :=
  let (h, s1) := alloc s
  if transcodeFails then (none, s1) else (some h, s1)

/-- `YoutubeResult` from `video_utils.py` lines 54–59. -/
structure YoutubeResult where
  video_id : String
  title : String
  description : Option String
  length : Nat
  views : Nat
deriving DecidableEq

/-- A raw entry returned by the external search provider, with the
optional fields the source reads via `entry.get(...)`. -/
structure RawEntry where
  id : String
  title : String
  description : Option String
  duration : Option Nat
  view_count : Option Nat
deriving DecidableEq

/-- Construction of a `YoutubeResult` from a raw entry, `video_utils.py`
lines 88–96.  Python truthiness: `entry.get("duration")` is falsy both
when the key is absent and when the value is `0`; same for view count. -/
def youtubeResultOfEntry (e : RawEntry) : YoutubeResult :=
  { video_id := e.id
    title := e.title
    description := e.description
    length := match e.duration with
      | some d => if d = 0 then FIVE_MINUTES else d
      | none => FIVE_MINUTES
    views := match e.view_count with
      | some v => v
      | none => 0 }

/-- Outcome of one of the three parallel search attempts, as seen by the
inner `search` closure (`video_utils.py` lines 69–103): an exception
(caught, returning `[]`), or a provider reply with its raw entries. -/
inductive AttemptOutcome where
  | errored
  | ok (entries : List RawEntry)
deriving DecidableEq

/-- Body of the inner `search` closure: on an exception it returns `[]`
(line 103); with no entries it falls through and returns `None`; with
entries it builds `YoutubeResult`s and drops ids in `existing_ids`
(line 98). -/
def searchAttempt (existing : List String) : AttemptOutcome → Option (List YoutubeResult)
  | .errored => some []
  | .ok entries =>
    if entries.isEmpty then none
    else some (((entries.map youtubeResultOfEntry).filter
      (fun v => ! existing.contains v.video_id)))

/-- The `as_completed` merge loop of `search_videos`, lines 108–113:
batches arrive in completion order; a falsy batch (`None` or `[]`) is
skipped; otherwise it is extended onto the accumulator, and the loop
breaks once `num_videos` results are accumulated. -/
def searchLoop (num_videos : Nat) :
    List (Option (List YoutubeResult)) → List YoutubeResult → List YoutubeResult
  | [], acc => acc
  | b :: rest, acc =>
    match b with
    | none => searchLoop num_videos rest acc
    | some vids =>
      if vids.isEmpty then searchLoop num_videos rest acc
      else
        let acc' := acc ++ vids
        if num_videos ≤ acc'.length then acc'
        else searchLoop num_videos rest acc'

/-- `search_videos` from `video_utils.py` lines 62–115.  The three
submitted attempts are given in completion order (`attempts`); the
rewritten queries only affect the external provider, hence live inside
each `AttemptOutcome`. -/
def search_videos (existing : List String) (attempts : List AttemptOutcome)
    (max_results num_videos : Nat) (filtered_videos : List YoutubeResult) :
    List YoutubeResult :=
  if max_results ≤ filtered_videos.length then filtered_videos.take max_results
  else (searchLoop num_videos (attempts.map (searchAttempt existing)) filtered_videos).take
    max_results

/-- `is_valid_id` from `video_utils.py` lines 135–136. -/
def is_valid_id (youtube_id : String) : Bool :=
  youtube_id.length == 11

/-- Character-list test for `a` occurring at the start of `b`. -/
def startsWithL : List Char → List Char → Bool
  | [], _ => true
  | _ :: _, [] => false
  | a :: as, b :: bs => a == b && startsWithL as bs

/-- Character-list substring test, modelling Python's `x in str(e)`. -/
def containsSubL (pat : List Char) : List Char → Bool
  | [] => pat.isEmpty
  | c :: rest => startsWithL pat (c :: rest) || containsSubL pat (rest)

/-- Python's `pat in msg` on strings. -/
def containsSubstr (msg pat : String) : Bool :=
  containsSubL pat.data msg.data

/-- The exception texts classified as an IP block, lines 179–182. -/
def isBlockedMsg (msg : String) : Bool :=
  containsSubstr msg "Your IP is likely being blocked by Youtube" ||
    containsSubstr msg "Requested format is not available"

/-- The exception texts classified as a fake/unavailable video, line 184. -/
def isFakeMsg (msg : String) : Bool :=
  containsSubstr msg "Video unavailable" ||
    containsSubstr msg "is not a valid URL" ||
    containsSubstr msg "Incomplete YouTube ID"

/-- Behaviour of the external yt-dlp transfer for one download: it either
raises an exception with some message, or completes leaving a file of
the given size in the temporary file. -/
inductive TransferOutcome where
  | raises (msg : String)
  | completes (size : Nat)
deriving DecidableEq

/-- Result of `video_utils.download_video`: the two raised exception
kinds, the `None` return, or the open temporary handle on success. -/
inductive DownloadResult where
  | blocked
  | fakeVideo
  | noResult
  | success (handle : Nat)
deriving DecidableEq

/-- `download_video` from `video_utils.py` lines 139–187.  An invalid id
raises `FakeVideoException` before any temporary file exists.  Otherwise
a temporary file is allocated and the transfer runs: a zero-byte result
closes the handle and returns `None` (lines 171–174); an exception
closes the handle (line 178) and is re-classified by its message, with
unrecognised messages returning `None` (lines 179–187). -/
def download_video (video_id : String) (transfer : TransferOutcome)
    (s : HState) : DownloadResult × HState :=
  if ! is_valid_id video_id then (.fakeVideo, s)
  else
    let (h, s1) := alloc s
    match transfer with
    | .completes size =>
      if size = 0 then (.noResult, hclose h s1) else (.success h, s1)
    | .raises msg =>
      let s2 := hclose h s1
      if isBlockedMsg msg then (.blocked, s2)
      else if isFakeMsg msg then (.fakeVideo, s2)
      else (.noResult, s2)

end video_utils

namespace miner_utils

open video_utils

/-- Per-candidate behaviour of the external world: the yt-dlp transfer,
the duration `ffmpeg.probe` reports for the downloaded file
(`get_video_duration`, `video_utils.py` lines 118–122), whether the
ffmpeg trim raises, whether the ImageBind embed raises, and the vectors
it returns otherwise. -/
structure CandidateEnv where
  transfer : TransferOutcome
  measured : Nat
  clipFails : Bool
  embedFails : Bool
  videoEmb : List Int
  audioEmb : List Int
  textEmb : List Int
deriving DecidableEq

/-- `VideoMetadata` as constructed in `miner_utils.py` lines 73–82
(`omega/protocol.py` is not under `src/`; the fields are exactly those
the constructor call populates, embeddings kept opaque). -/
structure VideoMetadata where
  video_id : String
  description : String
  views : Nat
  start_time : Nat
  end_time : Nat
  video_emb : List Int
  audio_emb : List Int
  description_emb : List Int
deriving DecidableEq

/-- `get_description` from `miner_utils.py` lines 24–34.  Python
truthiness: an empty description string is falsy and appends nothing. -/
def get_description (yt : YoutubeResult) : String :=
  match yt.description with
  | some d => if d = "" then yt.title else yt.title ++ "\n\n" ++ d
  | none => yt.title

/-- `get_relevant_timestamps` from `miner_utils.py` lines 37–47:
`start = 0`, `end = min(yt.length, MAX_VIDEO_LENGTH)`. -/
def get_relevant_timestamps (yt : YoutubeResult) : Nat × Nat :=
  (0, min yt.length MAX_VIDEO_LENGTH)

/-- What `task.result()` yields for one download task
(`miner_utils.download_video`, lines 49–59): the re-raised exception, the
implicit `None` return (when `video_utils.download_video` returned
`None`), or the candidate with its length corrected to the measured
duration together with the open download handle. -/
inductive TaskResult where
  | raised
  | noneResult
  | ok (r : YoutubeResult) (handle : Nat)
deriving DecidableEq

/-- `download_video` from `miner_utils.py` lines 49–59 as one executor
task: it calls `video_utils.download_video` and, on success, overwrites
`result.length` with `get_video_duration` of the downloaded file. -/
def download_video (r : YoutubeResult) (env : CandidateEnv) (s : HState) :
    TaskResult × HState :=
  match video_utils.download_video r.video_id env.transfer s with
  | (.success h, s') => (.ok { r with length := env.measured } h, s')
  | (.noResult, s') => (.noneResult, s')
  | (.blocked, s') => (.raised, s')
  | (.fakeVideo, s') => (.raised, s')

/-- `process_video` from `miner_utils.py` lines 61–86.  `clip_video`
allocates its output handle before the trim runs; if the trim raises,
the local `clip_path` was never assigned, so the `finally` block closes
only the download handle and the clip handle stays open.  On an embed
failure and on success the `finally` block closes both.  `none` models
an exception propagating to the caller. -/
def process_video (r : YoutubeResult) (dl : Nat) (env : CandidateEnv)
    (s : HState) : Option VideoMetadata × HState :=
  let ts := get_relevant_timestamps r
  let descr := get_description r
  match clip_video "" ts.1 ts.2 env.clipFails s with
  | (none, s1) => (none, hclose dl s1)
  | (some c, s1) =>
    if env.embedFails then (none, hclose c (hclose dl s1))
    else
      (some { video_id := r.video_id
              description := descr
              views := r.views
              start_time := ts.1
              end_time := ts.2
              video_emb := env.videoEmb
              audio_emb := env.audioEmb
              description_emb := env.textEmb },
       hclose c (hclose dl s1))

/-- All submitted download tasks run to completion: leaving the
`with ThreadPoolExecutor` block waits for every future, whether or not
the coordinator loop still consumes its result.  This phase yields every
task's result (in completion order) and the handle state after all
downloads. -/
def runDownloads : List (YoutubeResult × CandidateEnv) → HState →
    List (TaskResult × CandidateEnv) × HState
  | [], s => ([], s)
  | (r, e) :: rest, s =>
    let t := download_video r e s
    let ts := runDownloads rest t.2
    ((t.1, e) :: ts.1, ts.2)

/-- The `as_completed` consumption loop of `search_and_embed_videos`,
lines 107–113.  `task.result()` re-raises a task's exception and
unpacking a `None` raises `TypeError`; either exception — like one
raised by `process_video` — escapes the loop into the `except` handler
at line 115, which logs and falls through to `return video_metas`, so
the loop stops at the first failing candidate.  A processed record is
appended, and the loop breaks once `len(video_metas) == num_videos`. -/
def coordLoop (num_videos : Nat) : List (TaskResult × CandidateEnv) →
    List VideoMetadata → HState → List VideoMetadata × HState
  | [], acc, s => (acc, s)
  | (t, e) :: rest, acc, s =>
    match t with
    | .raised => (acc, s)
    | .noneResult => (acc, s)
    | .ok r h =>
      match process_video r h e s with
      | (none, s1) => (acc, s1)
      | (some m, s1) =>
        let acc' := acc ++ [m]
        if acc'.length = num_videos then (acc', s1)
        else coordLoop num_videos rest acc' s1

/-- `search_and_embed_videos` from `miner_utils.py` lines 88–118:
search with `max_results = int(num_videos * 1.5)`, submit one download
task per candidate, then consume completions.  `envOf` assigns each
candidate its external-world behaviour. -/
def search_and_embed_videos (existing : List String)
    (attempts : List AttemptOutcome) (envOf : YoutubeResult → CandidateEnv)
    (num_videos : Nat) : List VideoMetadata × HState :=
  let results := search_videos existing attempts (num_videos * 3 / 2) num_videos []
  let dl := runDownloads (results.map (fun r => (r, envOf r))) ⟨0, []⟩
  coordLoop num_videos dl.1 [] dl.2

end miner_utils

open video_utils miner_utils

/-- A candidate is viable for the whole pipeline: valid id, a transfer
that completes with a nonempty file, and trim and embed that succeed. -/
def transferOk : TransferOutcome → Bool
  | .completes size => size != 0
  | .raises _ => false

/-- The candidate would pass download, clip and embed if processed. -/
def candidateSucceeds (envOf : YoutubeResult → CandidateEnv)
    (r : YoutubeResult) : Bool :=
  is_valid_id r.video_id && transferOk (envOf r).transfer &&
    ! (envOf r).clipFails && ! (envOf r).embedFails

/-- Concrete raw search entries used in the concrete runs below. -/
def entryA : RawEntry := ⟨"aaaaaaaaaaa", "ta", none, some 50, some 3⟩

/-- Second concrete raw search entry. -/
def entryB : RawEntry := ⟨"bbbbbbbbbbb", "tb", none, some 50, some 5⟩

/-- Third concrete raw search entry. -/
def entryC : RawEntry := ⟨"ccccccccccc", "tc", none, some 50, some 7⟩

/-- An environment in which every stage of a candidate succeeds. -/
def envOk : CandidateEnv := ⟨.completes 10, 60, false, false, [1], [2], [3]⟩

/-- An environment whose transfer raises an unclassified error, so the
download task yields `None` and unpacking it raises in the loop. -/
def envFail : CandidateEnv := ⟨.raises "boom", 60, false, false, [], [], []⟩

/-- An all-success environment whose downloaded file measures 0 seconds
(a sub-second video: `int(float(duration))` truncates to 0). -/
def envShort : CandidateEnv := ⟨.completes 10, 0, false, false, [], [], []⟩

/-- Candidate `A` fails its download, every other candidate succeeds. -/
def envOfAB : YoutubeResult → CandidateEnv := fun r =>
  if r.video_id = "aaaaaaaaaaa" then envFail else envOk

/-- Three search attempts in completion order: the first returns the
three entries, the other two raise inside the provider call. -/
def attsABC : List AttemptOutcome := [.ok [entryA, entryB, entryC], .errored, .errored]

/-- The record `process_video` constructs for a (length-corrected)
candidate `r` in environment `e` when every stage succeeds. -/
def procRecord (r : YoutubeResult) (e : CandidateEnv) : VideoMetadata :=
  { video_id := r.video_id
    description := get_description r
    views := r.views
    start_time := 0
    end_time := min r.length MAX_VIDEO_LENGTH
    video_emb := e.videoEmb
    audio_emb := e.audioEmb
    description_emb := e.textEmb }

/-- A download task whose result lets `process_video` produce a record:
the download succeeded and neither trim nor embed will raise. -/
def taskOk : TaskResult × CandidateEnv → Bool
  | (.ok _ _, e) => ! e.clipFails && ! e.embedFails
  | _ => false

/-- A task at which the consumption loop aborts: its `task.result()`
raises, it unpacks to `None`, or its `process_video` call raises. -/
def taskFails : TaskResult × CandidateEnv → Prop
  | (.raised, _) => True
  | (.noneResult, _) => True
  | (.ok _ _, e) => e.clipFails = true ∨ e.embedFails = true

/-- `candidateSucceeds` on an already-paired candidate. -/
def pairSucceeds : YoutubeResult × CandidateEnv → Bool
  | (r, e) => is_valid_id r.video_id && transferOk e.transfer &&
      ! e.clipFails && ! e.embedFails

/-- The download handles held by pending `ok` task results, in order. -/
def pendingH : List (TaskResult × CandidateEnv) → List Nat
  | [] => []
  | (.ok _ h, _) :: rest => h :: pendingH rest
  | (.raised, _) :: rest => pendingH rest
  | (.noneResult, _) :: rest => pendingH rest

/-- Handle-state invariant: every allocated handle is either closed
(exactly once, `closed` duplicate-free) or held by exactly one pending
task; nothing unallocated was ever closed. -/
def goodState (s : HState) (pending : List Nat) : Prop :=
  s.closed.Nodup ∧ pending.Nodup ∧
  (∀ h ∈ pending, h < s.next ∧ h ∉ s.closed) ∧
  (∀ h ∈ s.closed, h < s.next) ∧
  (∀ h, h < s.next → h ∈ s.closed ∨ h ∈ pending)

/-- C10: for every nonnegative `n`, `seconds_to_str` is built from the
components `h = n / 3600`, `m = (n % 3600) / 60`, `s = n % 60`, which
satisfy `m < 60`, `s < 60` and `h*3600 + m*60 + s = n`, so the formatted
timestamp round-trips to the input second count. -/
theorem seconds_to_str_components (n : Nat) :
    seconds_to_str n =
      pad2 (n / 3600) ++ ":" ++ pad2 ((n % 3600) / 60) ++ ":" ++ pad2 (n % 60) ∧
    (n / 3600) * 3600 + ((n % 3600) / 60) * 60 + n % 60 = n ∧
    (n % 3600) / 60 < 60 ∧ n % 60 < 60 := by
  refine ⟨rfl, ?_, ?_, ?_⟩ <;> omega

/-- C9: a raw entry with no duration gets the fixed five-minute default
length, and a raw entry with no view count gets zero views, in the
constructed `YoutubeResult`. -/
theorem entry_defaults (id title : String) (descr : Option String)
    (dur vc : Option Nat) :
    (youtubeResultOfEntry ⟨id, title, descr, none, vc⟩).length = FIVE_MINUTES ∧
    (youtubeResultOfEntry ⟨id, title, descr, dur, none⟩).views = 0 :=
  ⟨rfl, rfl⟩

/-- C5: for a valid video id, `download_video` classifies failures into
exactly three outcomes — a message matching the rate-limit/block (or
unavailable-format) texts raises `IPBlockedException`; otherwise a
message matching the unavailable/invalid-URL/incomplete-id texts raises
`FakeVideoException`; and a transfer that completes leaving a zero-byte
file returns `None` without raising.  In each case the final state shows
the temporary handle allocated during the call (`s.next`) closed. -/
theorem download_video_classification (video_id msg : String) (s : HState)
    (hid : is_valid_id video_id = true) :
    (isBlockedMsg msg = true →
      video_utils.download_video video_id (.raises msg) s =
        (.blocked, ⟨s.next + 1, s.next :: s.closed⟩)) ∧
    (isBlockedMsg msg = false → isFakeMsg msg = true →
      video_utils.download_video video_id (.raises msg) s =
        (.fakeVideo, ⟨s.next + 1, s.next :: s.closed⟩)) ∧
    video_utils.download_video video_id (.completes 0) s =
      (.noResult, ⟨s.next + 1, s.next :: s.closed⟩) := by
  refine ⟨fun hb => ?_, fun hb hf => ?_, ?_⟩ <;>
    simp [video_utils.download_video, hid, alloc, hclose, *]

/-- C5 witness: the classification theorem applied at a concrete valid
id, a concrete unavailable-video message, and a zero-byte transfer. -/
theorem download_video_classification_witness :
    is_valid_id "aaaaaaaaaaa" = true ∧
    video_utils.download_video "aaaaaaaaaaa" (.raises "ERROR: Video unavailable") ⟨0, []⟩ =
      (.fakeVideo, ⟨1, [0]⟩) ∧
    video_utils.download_video "aaaaaaaaaaa" (.completes 0) ⟨0, []⟩ =
      (.noResult, ⟨1, [0]⟩) :=
  ⟨by decide,
   (download_video_classification "aaaaaaaaaaa" "ERROR: Video unavailable"
      ⟨0, []⟩ (by decide)).2.1 (by decide) (by decide),
   (download_video_classification "aaaaaaaaaaa" "unused" ⟨0, []⟩ (by decide)).2.2⟩

/-- C8 counterexample: on a failing trim, `clip_video` does not close
the output handle it allocated — handle `0` is still open after the
call, contradicting the claim that the output temporary handle is
discarded before the error propagates. -/
theorem clip_video_failure_leaves_handle_open :
    clip_video "clip.mp4" 0 60 true ⟨0, []⟩ = (none, ⟨1, []⟩) ∧
    openHandles ⟨1, []⟩ = [0] :=
  ⟨rfl, rfl⟩

/-- C8 amended: when the stream-copy trim fails, the error propagates to
the caller (`none`), but the output temporary handle allocated by
`clip_video` is not discarded: no close is recorded, and the fresh
handle is left open whenever the incoming state is consistent. -/
theorem clip_video_failure_propagates_without_close (p : String) (a b : Nat)
    (s : HState) :
    clip_video p a b true s = (none, ⟨s.next + 1, s.closed⟩) ∧
    (s.next ∉ s.closed → s.next ∈ openHandles ⟨s.next + 1, s.closed⟩) := by
  refine ⟨rfl, fun hns => ?_⟩
  simp [openHandles, List.mem_filter, List.mem_range]
  exact hns

/-- C8 amended witness: the amended theorem at a concrete input. -/
theorem clip_video_failure_propagates_without_close_witness :
    clip_video "clip.mp4" 3 9 true ⟨0, []⟩ = (none, ⟨1, []⟩) ∧
    ((0 : Nat) ∉ ([] : List Nat) → 0 ∈ openHandles ⟨1, []⟩) :=
  clip_video_failure_propagates_without_close "clip.mp4" 3 9 ⟨0, []⟩

theorem process_video_clipFail (r : YoutubeResult) (dl : Nat) (e : CandidateEnv)
    (s : HState) (hc : e.clipFails = true) :
    process_video r dl e s = (none, ⟨s.next + 1, dl :: s.closed⟩) := by
  simp [process_video, clip_video, alloc, hclose, hc]

theorem process_video_embedFail (r : YoutubeResult) (dl : Nat) (e : CandidateEnv)
    (s : HState) (hc : e.clipFails = false) (he : e.embedFails = true) :
    process_video r dl e s = (none, ⟨s.next + 1, s.next :: dl :: s.closed⟩) := by
  simp [process_video, clip_video, alloc, hclose, hc, he]

theorem process_video_success (r : YoutubeResult) (dl : Nat) (e : CandidateEnv)
    (s : HState) (hc : e.clipFails = false) (he : e.embedFails = false) :
    process_video r dl e s =
      (some (procRecord r e), ⟨s.next + 1, s.next :: dl :: s.closed⟩) := by
  simp [process_video, clip_video, alloc, hclose, hc, he, procRecord,
    get_relevant_timestamps, get_description]

theorem process_video_some (r : YoutubeResult) (dl : Nat) (e : CandidateEnv)
    (s s1 : HState) (m : VideoMetadata)
    (hp : process_video r dl e s = (some m, s1)) : m = procRecord r e := by
  by_cases hc : e.clipFails
  · rw [process_video_clipFail r dl e s hc] at hp
    exact absurd (congrArg Prod.fst hp) (by simp)
  · by_cases he : e.embedFails
    · rw [process_video_embedFail r dl e s (by simpa using hc) he] at hp
      exact absurd (congrArg Prod.fst hp) (by simp)
    · rw [process_video_success r dl e s (by simpa using hc) (by simpa using he)] at hp
      have := congrArg Prod.fst hp
      simpa using this.symm

theorem miner_download_ok (r : YoutubeResult) (e : CandidateEnv) (s : HState)
    (hid : is_valid_id r.video_id = true) (sz : Nat)
    (ht : e.transfer = .completes sz) (hsz : sz ≠ 0) :
    miner_utils.download_video r e s =
      (.ok { r with length := e.measured } s.next, ⟨s.next + 1, s.closed⟩) := by
  simp [miner_utils.download_video, video_utils.download_video, hid, ht, hsz, alloc]

theorem pairSucceeds_parts (r : YoutubeResult) (e : CandidateEnv)
    (h : pairSucceeds (r, e) = true) :
    is_valid_id r.video_id = true ∧ (∃ sz, e.transfer = .completes sz ∧ sz ≠ 0) ∧
      e.clipFails = false ∧ e.embedFails = false := by
  simp only [pairSucceeds, Bool.and_eq_true, Bool.not_eq_true'] at h
  obtain ⟨⟨⟨h1, h2⟩, h3⟩, h4⟩ := h
  refine ⟨h1, ?_, h3, h4⟩
  cases he : e.transfer with
  | raises m => rw [he] at h2; exact absurd h2 (by simp [transferOk])
  | completes sz =>
    rw [he] at h2
    exact ⟨sz, rfl, by simpa [transferOk] using h2⟩

theorem runDownloads_cons_ok (r : YoutubeResult) (e : CandidateEnv)
    (rest : List (YoutubeResult × CandidateEnv)) (s : HState)
    (hok : pairSucceeds (r, e) = true) :
    runDownloads ((r, e) :: rest) s =
      ((.ok { r with length := e.measured } s.next, e) ::
          (runDownloads rest ⟨s.next + 1, s.closed⟩).1,
        (runDownloads rest ⟨s.next + 1, s.closed⟩).2) := by
  obtain ⟨h1, ⟨sz, ht, hsz⟩, _, _⟩ := pairSucceeds_parts r e hok
  simp [runDownloads, miner_download_ok r e s h1 sz ht hsz]

theorem runDownloads_length (cands : List (YoutubeResult × CandidateEnv)) (s : HState) :
    (runDownloads cands s).1.length = cands.length := by
  induction cands generalizing s with
  | nil => rfl
  | cons c rest ih =>
    obtain ⟨r, e⟩ := c
    simp [runDownloads, ih]

theorem runDownloads_taskOk : ∀ (cands : List (YoutubeResult × CandidateEnv)) (s : HState),
    (∀ c ∈ cands, pairSucceeds c = true) →
    ∀ p ∈ (runDownloads cands s).1, taskOk p = true := by
  intro cands
  induction cands with
  | nil => intro s _ p hp; simp [runDownloads] at hp
  | cons c rest ih =>
    intro s hc p hp
    obtain ⟨r, e⟩ := c
    have hok := hc (r, e) (List.mem_cons_self _ _)
    obtain ⟨_, _, h3, h4⟩ := pairSucceeds_parts r e hok
    rw [runDownloads_cons_ok r e rest s hok] at hp
    rcases List.mem_cons.mp hp with hp | hp
    · subst hp; simp [taskOk, h3, h4]
    · exact ih _ (fun c hc' => hc c (List.mem_cons_of_mem _ hc')) p hp

theorem runDownloads_mem : ∀ (cands : List (YoutubeResult × CandidateEnv))
    (s : HState) (r : YoutubeResult) (h : Nat) (e : CandidateEnv),
    (TaskResult.ok r h, e) ∈ (runDownloads cands s).1 →
    ∃ r₀, (r₀, e) ∈ cands ∧ r = { r₀ with length := e.measured } := by
  intro cands
  induction cands with
  | nil => intro s r h e hm; simp [runDownloads] at hm
  | cons c rest ih =>
    intro s r h e hm
    obtain ⟨r₀, e₀⟩ := c
    simp only [runDownloads, List.mem_cons] at hm
    rcases hm with hm | hm
    · rcases hd : video_utils.download_video r₀.video_id e₀.transfer s with ⟨dr, s'⟩
      cases dr with
      | blocked => simp [miner_utils.download_video, hd] at hm
      | fakeVideo => simp [miner_utils.download_video, hd] at hm
      | noResult => simp [miner_utils.download_video, hd] at hm
      | success hh =>
        simp [miner_utils.download_video, hd] at hm
        obtain ⟨⟨hr, _⟩, he⟩ := hm
        exact ⟨r₀, by rw [he]; exact List.mem_cons_self _ _, by rw [he]; exact hr⟩
    · obtain ⟨r₁, hmem, hr⟩ := ih _ r h e hm
      exact ⟨r₁, List.mem_cons_of_mem _ hmem, hr⟩

theorem goodState_init : goodState ⟨0, []⟩ [] := by
  refine ⟨List.nodup_nil, List.nodup_nil, ?_, ?_, ?_⟩ <;> simp

theorem released_of_goodState (s : HState) (hg : goodState s []) :
    releasedExactlyOnce s := by
  obtain ⟨hnd, _, _, hcb, hcov⟩ := hg
  exact ⟨hnd, fun h =>
    ⟨fun hh => hcb h hh, fun hh => (hcov h hh).resolve_right (by simp)⟩⟩

theorem goodState_alloc (s : HState) (P : List Nat) (hg : goodState s P) :
    goodState ⟨s.next + 1, s.closed⟩ (P ++ [s.next]) := by
  obtain ⟨hnd, hpnd, hpend, hcb, hcov⟩ := hg
  refine ⟨hnd, ?_, ?_, ?_, ?_⟩
  · simp only [List.nodup_append]
    refine ⟨hpnd, by simp, ?_⟩
    intro a ha hb
    simp at hb
    subst hb
    exact Nat.lt_irrefl _ (hpend _ ha).1
  · intro h hh
    rcases List.mem_append.mp hh with hh | hh
    · exact ⟨Nat.lt_succ_of_lt (hpend h hh).1, (hpend h hh).2⟩
    · simp at hh
      subst hh
      exact ⟨Nat.lt_succ_self _, fun hcl => Nat.lt_irrefl _ (hcb _ hcl)⟩
  · exact fun h hh => Nat.lt_succ_of_lt (hcb h hh)
  · intro h hh
    rcases Nat.lt_succ_iff_lt_or_eq.mp hh with hh | hh
    · rcases hcov h hh with hc | hc
      · exact Or.inl hc
      · exact Or.inr (List.mem_append.mpr (Or.inl hc))
    · subst hh
      exact Or.inr (List.mem_append.mpr (Or.inr (by simp)))

theorem goodState_step (s : HState) (hd : Nat) (P : List Nat)
    (hg : goodState s (hd :: P)) :
    goodState ⟨s.next + 1, s.next :: hd :: s.closed⟩ P := by
  obtain ⟨hnd, hpnd, hpend, hcb, hcov⟩ := hg
  obtain ⟨hhd1, hhd2⟩ := hpend hd (List.mem_cons_self _ _)
  obtain ⟨hhdP, hPnd⟩ := List.nodup_cons.mp hpnd
  refine ⟨?_, hPnd, ?_, ?_, ?_⟩
  · refine List.nodup_cons.mpr ⟨?_, List.nodup_cons.mpr ⟨hhd2, hnd⟩⟩
    simp only [List.mem_cons]
    rintro (hx | hx)
    · exact absurd hx (by omega)
    · exact Nat.lt_irrefl _ (hcb _ hx)
  · intro h hh
    have hP := hpend h (List.mem_cons_of_mem _ hh)
    refine ⟨Nat.lt_succ_of_lt hP.1, ?_⟩
    simp only [List.mem_cons]
    rintro (hx | hx | hx)
    · exact Nat.lt_irrefl _ (hx ▸ hP.1)
    · exact hhdP (hx ▸ hh)
    · exact hP.2 hx
  · intro h hh
    simp only [List.mem_cons] at hh
    rcases hh with hh | hh | hh
    · subst hh; exact Nat.lt_succ_self _
    · subst hh; exact Nat.lt_succ_of_lt hhd1
    · exact Nat.lt_succ_of_lt (hcb _ hh)
  · intro h hh
    rcases Nat.lt_succ_iff_lt_or_eq.mp hh with hh | hh
    · rcases hcov h hh with hc | hc
      · exact Or.inl (List.mem_cons_of_mem _ (List.mem_cons_of_mem _ hc))
      · rcases List.mem_cons.mp hc with hc | hc
        · exact Or.inl (by simp [hc])
        · exact Or.inr hc
    · subst hh
      exact Or.inl (List.mem_cons_self _ _)

theorem runDownloads_good : ∀ (cands : List (YoutubeResult × CandidateEnv))
    (s : HState) (P : List Nat),
    (∀ c ∈ cands, pairSucceeds c = true) → goodState s P →
    goodState (runDownloads cands s).2 (P ++ pendingH (runDownloads cands s).1) := by
  intro cands
  induction cands with
  | nil => intro s P _ hg; simpa [runDownloads, pendingH] using hg
  | cons c rest ih =>
    intro s P hc hg
    obtain ⟨r, e⟩ := c
    have hok := hc _ (List.mem_cons_self _ _)
    rw [runDownloads_cons_ok r e rest s hok]
    simp only [pendingH]
    have := ih ⟨s.next + 1, s.closed⟩ (P ++ [s.next])
      (fun c hc' => hc c (List.mem_cons_of_mem _ hc')) (goodState_alloc s P hg)
    simpa [List.append_assoc] using this

theorem coordLoop_length_le (n : Nat) : ∀ (ts : List (TaskResult × CandidateEnv))
    (acc : List VideoMetadata) (s : HState),
    acc.length < n → (coordLoop n ts acc s).1.length ≤ n := by
  intro ts
  induction ts with
  | nil => intro acc s h; simpa [coordLoop] using Nat.le_of_lt h
  | cons p rest ih =>
    intro acc s h
    obtain ⟨t, e⟩ := p
    cases t with
    | raised => simpa [coordLoop] using Nat.le_of_lt h
    | noneResult => simpa [coordLoop] using Nat.le_of_lt h
    | ok r hd =>
      rcases hp : process_video r hd e s with ⟨om, s1⟩
      cases om with
      | none => simpa [coordLoop, hp] using Nat.le_of_lt h
      | some m =>
        by_cases hb : (acc ++ [m]).length = n
        · simp [coordLoop, hp, hb]
        · simp only [coordLoop, hp, hb, if_false]
          exact ih (acc ++ [m]) s1 (by simp at hb ⊢; omega)

theorem coordLoop_fills (n : Nat) : ∀ (ts : List (TaskResult × CandidateEnv))
    (acc : List VideoMetadata) (s : HState),
    (∀ p ∈ ts, taskOk p = true) → acc.length < n → n ≤ acc.length + ts.length →
    (coordLoop n ts acc s).1.length = n := by
  intro ts
  induction ts with
  | nil => intro acc s _ h1 h2; simp at h2; omega
  | cons p rest ih =>
    intro acc s hok h1 h2
    obtain ⟨t, e⟩ := p
    have hok0 := hok (t, e) (List.mem_cons_self _ _)
    cases t with
    | raised => simp [taskOk] at hok0
    | noneResult => simp [taskOk] at hok0
    | ok r hd =>
      simp only [taskOk, Bool.and_eq_true, Bool.not_eq_true'] at hok0
      obtain ⟨hc, he⟩ := hok0
      have hps := process_video_success r hd e s hc he
      by_cases hb : (acc ++ [procRecord r e]).length = n
      · simp [coordLoop, hps, hb]
      · simp only [coordLoop, hps, hb, if_false]
        exact ih _ _ (fun q hq => hok q (List.mem_cons_of_mem _ hq))
          (by simp at hb ⊢; omega) (by simp at h2 ⊢; omega)

theorem coordLoop_mem (n : Nat) : ∀ (ts : List (TaskResult × CandidateEnv))
    (acc : List VideoMetadata) (s : HState) (m : VideoMetadata),
    m ∈ (coordLoop n ts acc s).1 →
    m ∈ acc ∨ ∃ r h e, (TaskResult.ok r h, e) ∈ ts ∧ m = procRecord r e := by
  intro ts
  induction ts with
  | nil => intro acc s m hm; exact Or.inl (by simpa [coordLoop] using hm)
  | cons p rest ih =>
    intro acc s m hm
    obtain ⟨t, e⟩ := p
    cases t with
    | raised => exact Or.inl (by simpa [coordLoop] using hm)
    | noneResult => exact Or.inl (by simpa [coordLoop] using hm)
    | ok r hd =>
      rcases hp : process_video r hd e s with ⟨om, s1⟩
      cases om with
      | none => exact Or.inl (by simpa [coordLoop, hp] using hm)
      | some m' =>
        have hm' : m' = procRecord r e := process_video_some r hd e s s1 m' hp
        by_cases hb : (acc ++ [m']).length = n
        · simp only [coordLoop, hp, hb, if_true] at hm
          rcases List.mem_append.mp hm with hm0 | hm0
          · exact Or.inl hm0
          · refine Or.inr ⟨r, hd, e, List.mem_cons_self _ _, ?_⟩
            rw [← hm']
            simpa using hm0
        · simp only [coordLoop, hp, hb, if_false] at hm
          rcases ih _ _ m hm with hm0 | ⟨r1, h1, e1, hmem, hrec⟩
          · rcases List.mem_append.mp hm0 with hm1 | hm1
            · exact Or.inl hm1
            · refine Or.inr ⟨r, hd, e, List.mem_cons_self _ _, ?_⟩
              rw [← hm']
              simpa using hm1
          · exact Or.inr ⟨r1, h1, e1, List.mem_cons_of_mem _ hmem, hrec⟩

theorem coordLoop_goodState (n : Nat) : ∀ (ts : List (TaskResult × CandidateEnv))
    (acc : List VideoMetadata) (s : HState),
    (∀ p ∈ ts, taskOk p = true) → goodState s (pendingH ts) →
    ts.length + acc.length ≤ n →
    goodState (coordLoop n ts acc s).2 [] := by
  intro ts
  induction ts with
  | nil => intro acc s _ hg _; simpa [coordLoop, pendingH] using hg
  | cons p rest ih =>
    intro acc s hok hg hlen
    obtain ⟨t, e⟩ := p
    have hok0 := hok (t, e) (List.mem_cons_self _ _)
    cases t with
    | raised => simp [taskOk] at hok0
    | noneResult => simp [taskOk] at hok0
    | ok r hd =>
      simp only [taskOk, Bool.and_eq_true, Bool.not_eq_true'] at hok0
      obtain ⟨hc, he⟩ := hok0
      have hps := process_video_success r hd e s hc he
      have hg' : goodState ⟨s.next + 1, s.next :: hd :: s.closed⟩ (pendingH rest) :=
        goodState_step s hd (pendingH rest) (by simpa [pendingH] using hg)
      by_cases hb : (acc ++ [procRecord r e]).length = n
      · have hrest : rest = [] := by
          cases rest with
          | nil => rfl
          | cons q qs => simp at hb hlen; omega
        subst hrest
        simp only [coordLoop, hps, hb, if_true]
        simpa [pendingH] using hg'
      · simp only [coordLoop, hps, hb, if_false]
        exact ih _ _ (fun q hq => hok q (List.mem_cons_of_mem _ hq)) hg'
          (by simp at hlen ⊢; omega)

theorem searchLoop_concat (nv : Nat) : ∀ (batches : List (Option (List YoutubeResult)))
    (acc : List YoutubeResult),
    ∃ k, searchLoop nv batches acc = acc ++ ((batches.take k).filterMap id).flatten := by
  intro batches
  induction batches with
  | nil => intro acc; exact ⟨0, by simp [searchLoop]⟩
  | cons b rest ih =>
    intro acc
    match b with
    | none =>
      obtain ⟨k, hk⟩ := ih acc
      exact ⟨k + 1, by simpa [searchLoop] using hk⟩
    | some [] =>
      obtain ⟨k, hk⟩ := ih acc
      exact ⟨k + 1, by simpa [searchLoop] using hk⟩
    | some (v :: vs) =>
      by_cases hb : nv ≤ (acc ++ v :: vs).length
      · refine ⟨1, ?_⟩
        simp [searchLoop, hb]
        intro h
        simp only [List.length_append, List.length_cons] at hb
        exfalso
        omega
      · obtain ⟨k, hk⟩ := ih (acc ++ v :: vs)
        refine ⟨k + 1, ?_⟩
        simp [searchLoop, hb, hk]
        intro h
        simp only [List.length_append, List.length_cons] at hb
        exfalso
        omega

theorem searchAttempt_mem (existing : List String) (a : AttemptOutcome)
    (l : List YoutubeResult) (hl : searchAttempt existing a = some l) :
    ∀ v ∈ l, existing.contains v.video_id = false := by
  cases a with
  | errored =>
    simp only [searchAttempt, Option.some.injEq] at hl
    subst hl
    intro v hv
    simp at hv
  | ok entries =>
    by_cases he : entries.isEmpty
    · simp [searchAttempt, he] at hl
    · simp [searchAttempt, he] at hl
      subst hl
      intro v hv
      have := (List.mem_filter.mp hv).2
      simpa using this

theorem search_videos_no_known (existing : List String)
    (attempts : List AttemptOutcome) (mr nv : Nat) :
    ∀ v ∈ search_videos existing attempts mr nv [],
      existing.contains v.video_id = false := by
  intro v hv
  unfold search_videos at hv
  simp only [List.length_nil] at hv
  by_cases h0 : mr ≤ 0
  · rw [if_pos (by simpa using h0)] at hv
    simp at hv
  · rw [if_neg (by simpa using h0)] at hv
    obtain ⟨k, hk⟩ := searchLoop_concat nv (attempts.map (searchAttempt existing)) []
    rw [hk] at hv
    have hv1 := List.take_subset _ _ hv
    simp only [List.nil_append] at hv1
    obtain ⟨l, hlmem, hvl⟩ := List.mem_flatten.mp hv1
    obtain ⟨ob, hob, hid⟩ := List.mem_filterMap.mp hlmem
    have hob' : ob ∈ attempts.map (searchAttempt existing) := List.take_subset _ _ hob
    obtain ⟨a, _, hae⟩ := List.mem_map.mp hob'
    exact searchAttempt_mem existing a l (by rw [hae]; exact hid) v hvl

theorem pipeline_mem (existing : List String) (attempts : List AttemptOutcome)
    (envOf : YoutubeResult → CandidateEnv) (nv : Nat) (m : VideoMetadata)
    (hm : m ∈ (search_and_embed_videos existing attempts envOf nv).1) :
    ∃ r₀, r₀ ∈ search_videos existing attempts (nv * 3 / 2) nv [] ∧
      m = procRecord { r₀ with length := (envOf r₀).measured } (envOf r₀) := by
  unfold search_and_embed_videos at hm
  rcases coordLoop_mem nv _ [] _ m hm with hm0 | ⟨r, h, e, hmem, hrec⟩
  · simp at hm0
  · obtain ⟨r₀, hr₀c, hr⟩ := runDownloads_mem _ _ r h e hmem
    obtain ⟨a, ha, hae⟩ := List.mem_map.mp hr₀c
    simp only [Prod.mk.injEq] at hae
    obtain ⟨ha1, ha2⟩ := hae
    subst ha1
    subst ha2
    refine ⟨a, ha, ?_⟩
    rw [hrec, hr]

/-- C1 counterexample: with candidates `[A, B, C]` where only `A`'s
download fails and quota 2, the run returns `[]` — yet the same run
offered only the succeeding candidate `B` returns `B`'s full record.  A
single candidate's failure therefore does not merely remove that
candidate: it aborts the processing of the other completed candidates. -/
theorem single_failure_aborts_other_candidates :
    (search_and_embed_videos [] attsABC envOfAB 2).1 = [] ∧
    (search_and_embed_videos [] [.ok [entryB], .errored, .errored] envOfAB 2).1 =
      [⟨"bbbbbbbbbbb", "tb", 5, 0, 60, [1], [2], [3]⟩] :=
  ⟨rfl, rfl⟩

/-- C2 counterexample: the run dispatches candidates `[A, B, C]` of
which `B` and `C` would complete every stage successfully (two of them,
meeting the quota 2), but because `A`'s download fails first the run
returns 0 records, not exactly 2. -/
theorem enough_successes_but_zero_records :
    ((search_videos [] attsABC 3 2 []).filter (candidateSucceeds envOfAB)).length = 2 ∧
    (search_and_embed_videos [] attsABC envOfAB 2).1.length = 0 :=
  ⟨by decide, by decide⟩

/-- C3 counterexample: three always-successful candidates with quota 2.
The quota is met after two candidates, the third download still runs to
completion (the executor is exited with `wait`), and its handle — id 2 —
is never closed: it is still open after the run returns. -/
theorem abandoned_download_handle_leaks :
    openHandles (search_and_embed_videos [] attsABC (fun _ => envOk) 2).2 = [2] ∧
    ¬ releasedExactlyOnce (search_and_embed_videos [] attsABC (fun _ => envOk) 2).2 := by
  refine ⟨by decide, fun h => ?_⟩
  exact absurd ((h.2 2).mpr (by decide)) (by decide)

/-- C4 counterexample: a candidate whose downloaded file measures 0
seconds (`get_video_duration` truncates sub-second durations to 0) still
yields an emitted record, with `start_time = end_time = 0`, violating
the strict inequality `start_time < end_time`. -/
theorem zero_measured_length_breaks_strict_window :
    (search_and_embed_videos [] [.ok [entryB], .errored, .errored]
        (fun _ => envShort) 2).1 =
      [⟨"bbbbbbbbbbb", "tb", 5, 0, 0, [], [], []⟩] ∧
    ((search_and_embed_videos [] [.ok [entryB], .errored, .errored]
        (fun _ => envShort) 2).1.all
      (fun m => decide (m.start_time < m.end_time))) = false :=
  ⟨rfl, rfl⟩

/-- C1 amended: a per-candidate failure never raises out of
`search_and_embed_videos` (its consumption loop is a total function
returning the accumulated list), but the failure is not local: the loop
returns at the first failing task, so every candidate after it in
completion order is dropped — the result is exactly that of the run
containing only the tasks before the failure. -/
theorem failure_aborts_remaining_candidates (n : Nat) :
    ∀ (xs : List (TaskResult × CandidateEnv)) (f : TaskResult × CandidateEnv)
      (ys : List (TaskResult × CandidateEnv)) (acc : List VideoMetadata)
      (s : HState), taskFails f →
    (coordLoop n (xs ++ f :: ys) acc s).1 = (coordLoop n xs acc s).1 := by
  intro xs
  induction xs with
  | nil =>
    intro f ys acc s hf
    obtain ⟨t, e⟩ := f
    cases t with
    | raised => simp [coordLoop]
    | noneResult => simp [coordLoop]
    | ok r hd =>
      simp only [taskFails] at hf
      rcases hf with hc | he
      · simp [coordLoop, process_video_clipFail r hd e s hc]
      · by_cases hc : e.clipFails
        · simp [coordLoop, process_video_clipFail r hd e s hc]
        · have hc' : e.clipFails = false := by simpa using hc
          simp [coordLoop, process_video_embedFail r hd e s hc' he]
  | cons p xs' ih =>
    intro f ys acc s hf
    obtain ⟨t, e⟩ := p
    cases t with
    | raised => simp [coordLoop]
    | noneResult => simp [coordLoop]
    | ok r hd =>
      rcases hp : process_video r hd e s with ⟨om, s1⟩
      cases om with
      | none => simp [coordLoop, hp]
      | some m =>
        by_cases hb : (acc ++ [m]).length = n
        · simp [coordLoop, hp, hb]
        · simp only [List.cons_append, coordLoop, hp, hb, if_false]
          exact ih f ys (acc ++ [m]) s1 hf

/-- C1 amended witness: the amended theorem at a one-task run whose only
task raised. -/
theorem failure_aborts_remaining_candidates_witness :
    taskFails (TaskResult.raised, envOk) ∧
    (coordLoop 1 ([] ++ (TaskResult.raised, envOk) :: []) [] ⟨0, []⟩).1 =
      (coordLoop 1 [] ([] : List VideoMetadata) ⟨0, []⟩).1 :=
  ⟨trivial,
    failure_aborts_remaining_candidates 1 [] (TaskResult.raised, envOk) [] [] ⟨0, []⟩ trivial⟩

/-- C2 amended: the returned list never exceeds `num_videos` records;
and when every dispatched candidate would complete all stages
successfully and at least `num_videos` candidates are dispatched, the
run returns exactly `num_videos` records.  (An early failing candidate
can push the count below `num_videos` even when enough later candidates
would succeed — see the counterexample.) -/
theorem result_bounded_and_quota (existing : List String)
    (attempts : List AttemptOutcome) (envOf : YoutubeResult → CandidateEnv)
    (nv : Nat) :
    (search_and_embed_videos existing attempts envOf nv).1.length ≤ nv ∧
    ((∀ r ∈ search_videos existing attempts (nv * 3 / 2) nv [],
        candidateSucceeds envOf r = true) →
      nv ≤ (search_videos existing attempts (nv * 3 / 2) nv []).length →
      (search_and_embed_videos existing attempts envOf nv).1.length = nv) := by
  constructor
  · rcases Nat.eq_zero_or_pos nv with h0 | h0
    · subst h0
      simp [search_and_embed_videos, search_videos, runDownloads, coordLoop]
    · unfold search_and_embed_videos
      exact coordLoop_length_le nv _ [] _ (by simpa using h0)
  · intro hsucc hlen
    rcases Nat.eq_zero_or_pos nv with h0 | h0
    · subst h0
      simp [search_and_embed_videos, search_videos, runDownloads, coordLoop]
    · unfold search_and_embed_videos
      apply coordLoop_fills
      · apply runDownloads_taskOk
        intro c hc
        obtain ⟨a, ha, hae⟩ := List.mem_map.mp hc
        rw [← hae]
        exact hsucc a ha
      · simpa using h0
      · rw [runDownloads_length]
        simpa using hlen

/-- C2 amended witness: the quota part of the amended theorem at a run
with three always-successful candidates and quota 2. -/
theorem result_bounded_and_quota_witness :
    (∀ r ∈ search_videos [] attsABC (2 * 3 / 2) 2 [],
      candidateSucceeds (fun _ => envOk) r = true) ∧
    2 ≤ (search_videos [] attsABC (2 * 3 / 2) 2 []).length ∧
    (search_and_embed_videos [] attsABC (fun _ => envOk) 2).1.length = 2 :=
  ⟨by decide, by decide,
    (result_bounded_and_quota [] attsABC (fun _ => envOk) 2).2 (by decide) (by decide)⟩

/-- C3 amended: the handles of every candidate the coordinator drives to
completion are released exactly once — in particular, in a run where no
candidate fails and at most `num_videos` candidates are dispatched (so
none is abandoned), every handle ever created is closed exactly once.
Handles of candidates abandoned after the quota is met are NOT released
— see the counterexample. -/
theorem handles_released_when_all_processed (existing : List String)
    (attempts : List AttemptOutcome) (envOf : YoutubeResult → CandidateEnv)
    (nv : Nat)
    (hsucc : ∀ r ∈ search_videos existing attempts (nv * 3 / 2) nv [],
      candidateSucceeds envOf r = true)
    (hlen : (search_videos existing attempts (nv * 3 / 2) nv []).length ≤ nv) :
    releasedExactlyOnce (search_and_embed_videos existing attempts envOf nv).2 := by
  unfold search_and_embed_videos
  apply released_of_goodState
  apply coordLoop_goodState
  · apply runDownloads_taskOk
    intro c hc
    obtain ⟨a, ha, hae⟩ := List.mem_map.mp hc
    rw [← hae]
    exact hsucc a ha
  · have := runDownloads_good
      ((search_videos existing attempts (nv * 3 / 2) nv []).map (fun r => (r, envOf r)))
      ⟨0, []⟩ []
      (fun c hc => by
        obtain ⟨a, ha, hae⟩ := List.mem_map.mp hc
        rw [← hae]
        exact hsucc a ha)
      goodState_init
    simpa using this
  · rw [runDownloads_length]
    simpa using hlen

/-- C3 amended witness: a run with two always-successful candidates and
quota 2 (nobody abandoned) releases every handle exactly once. -/
theorem handles_released_when_all_processed_witness :
    (∀ r ∈ search_videos [] [.ok [entryA, entryB], .errored, .errored] (2 * 3 / 2) 2 [],
      candidateSucceeds (fun _ => envOk) r = true) ∧
    (search_videos [] [.ok [entryA, entryB], .errored, .errored] (2 * 3 / 2) 2 []).length ≤ 2 ∧
    releasedExactlyOnce
      (search_and_embed_videos [] [.ok [entryA, entryB], .errored, .errored]
        (fun _ => envOk) 2).2 :=
  ⟨by decide, by decide,
    handles_released_when_all_processed [] [.ok [entryA, entryB], .errored, .errored]
      (fun _ => envOk) 2 (by decide) (by decide)⟩

/-- C4 amended: every emitted record has `start_time = 0` and
`end_time = min measured_length MAX_VIDEO_LENGTH` for the measured
length of its candidate's downloaded file (so
`start_time ≤ end_time ≤ min(measured_length, MAX_VIDEO_LENGTH)`), and
the inequality `start_time < end_time` is strict whenever the measured
length is positive.  For a zero measured length the window degenerates —
see the counterexample. -/
theorem emitted_window_bounds (existing : List String)
    (attempts : List AttemptOutcome) (envOf : YoutubeResult → CandidateEnv)
    (nv : Nat) (m : VideoMetadata)
    (hm : m ∈ (search_and_embed_videos existing attempts envOf nv).1) :
    m.start_time = 0 ∧ m.end_time ≤ MAX_VIDEO_LENGTH ∧
    ∃ r₀, r₀ ∈ search_videos existing attempts (nv * 3 / 2) nv [] ∧
      m.end_time = min ((envOf r₀).measured) MAX_VIDEO_LENGTH ∧
      (0 < (envOf r₀).measured → m.start_time < m.end_time) := by
  obtain ⟨r₀, hr₀, hrec⟩ := pipeline_mem existing attempts envOf nv m hm
  subst hrec
  refine ⟨rfl, Nat.min_le_right _ _, r₀, hr₀, rfl, fun hpos => ?_⟩
  have : 0 < min ((envOf r₀).measured) MAX_VIDEO_LENGTH :=
    lt_min hpos (by simp [MAX_VIDEO_LENGTH])
  simpa [procRecord] using this

/-- C4 amended witness: the theorem applied to the record emitted by a
concrete all-success run whose downloaded file measures 60 seconds. -/
theorem emitted_window_bounds_witness :
    (⟨"bbbbbbbbbbb", "tb", 5, 0, 60, [1], [2], [3]⟩ : VideoMetadata) ∈
      (search_and_embed_videos [] [.ok [entryB], .errored, .errored]
        (fun _ => envOk) 2).1 ∧
    ((⟨"bbbbbbbbbbb", "tb", 5, 0, 60, [1], [2], [3]⟩ : VideoMetadata).start_time = 0 ∧
      (⟨"bbbbbbbbbbb", "tb", 5, 0, 60, [1], [2], [3]⟩ : VideoMetadata).end_time ≤ MAX_VIDEO_LENGTH ∧
      ∃ r₀, r₀ ∈ search_videos [] [.ok [entryB], .errored, .errored] (2 * 3 / 2) 2 [] ∧
        (⟨"bbbbbbbbbbb", "tb", 5, 0, 60, [1], [2], [3]⟩ : VideoMetadata).end_time =
          min (((fun _ => envOk) r₀ : CandidateEnv).measured) MAX_VIDEO_LENGTH ∧
        (0 < (((fun _ => envOk) r₀ : CandidateEnv)).measured →
          (⟨"bbbbbbbbbbb", "tb", 5, 0, 60, [1], [2], [3]⟩ : VideoMetadata).start_time <
            (⟨"bbbbbbbbbbb", "tb", 5, 0, 60, [1], [2], [3]⟩ : VideoMetadata).end_time)) :=
  ⟨by decide,
    emitted_window_bounds [] [.ok [entryB], .errored, .errored]
      (fun _ => envOk) 2 ⟨"bbbbbbbbbbb", "tb", 5, 0, 60, [1], [2], [3]⟩ (by decide)⟩

/-- C6 amended: `search_videos` merges the attempts' batches by plain
concatenation in completion order — the output is a prefix of the
concatenation of the accepted batches, truncated to `max_results`, with
no de-duplication (duplicate ids from different attempts survive; see
the counterexample). -/
theorem search_videos_concat_of_attempts (existing : List String)
    (attempts : List AttemptOutcome) (mr nv : Nat) :
    ∃ k, search_videos existing attempts mr nv [] =
      ((((attempts.map (searchAttempt existing)).take k).filterMap id).flatten).take mr := by
  unfold search_videos
  simp only [List.length_nil]
  by_cases h0 : mr ≤ 0
  · rw [if_pos h0]
    exact ⟨0, by simp⟩
  · rw [if_neg h0]
    obtain ⟨k, hk⟩ := searchLoop_concat nv (attempts.map (searchAttempt existing)) []
    rw [hk]
    exact ⟨k, by simp⟩

/-- C7: no identifier from the known-id set ever appears in the output
of `search_videos` (called as the pipeline calls it, with no
pre-accumulated list) or in the final record list returned by
`search_and_embed_videos`. -/
theorem no_known_id_in_results (existing : List String)
    (attempts : List AttemptOutcome) (envOf : YoutubeResult → CandidateEnv)
    (mr nv : Nat) :
    (∀ v ∈ search_videos existing attempts mr nv [],
      existing.contains v.video_id = false) ∧
    (∀ m ∈ (search_and_embed_videos existing attempts envOf nv).1,
      existing.contains m.video_id = false) := by
  refine ⟨search_videos_no_known existing attempts mr nv, fun m hm => ?_⟩
  obtain ⟨r₀, hr₀, hrec⟩ := pipeline_mem existing attempts envOf nv m hm
  have hid : m.video_id = r₀.video_id := by rw [hrec]; rfl
  rw [hid]
  exact search_videos_no_known existing attempts _ nv r₀ hr₀

/-- C7 witness: a run against a nonempty known-id set emits a record,
and its id is not in the set. -/
theorem no_known_id_in_results_witness :
    (⟨"bbbbbbbbbbb", "tb", 5, 0, 60, [1], [2], [3]⟩ : VideoMetadata) ∈
      (search_and_embed_videos ["zzzzzzzzzzz"] [.ok [entryB], .errored, .errored]
        (fun _ => envOk) 2).1 ∧
    (["zzzzzzzzzzz"] : List String).contains
      (⟨"bbbbbbbbbbb", "tb", 5, 0, 60, [1], [2], [3]⟩ : VideoMetadata).video_id = false :=
  ⟨by decide,
    (no_known_id_in_results ["zzzzzzzzzzz"] [.ok [entryB], .errored, .errored]
      (fun _ => envOk) 3 2).2 _ (by decide)⟩

/-- C6 counterexample: two of the three parallel attempts return the
same entry; `search_videos` concatenates their batches without any
de-duplication, so the same `video_id` appears twice in its output. -/
theorem search_videos_returns_duplicate_ids :
    (search_videos [] [.ok [entryA], .ok [entryA], .errored] 8 8 []).map
      (fun v => v.video_id) = ["aaaaaaaaaaa", "aaaaaaaaaaa"] ∧
    ¬ ((search_videos [] [.ok [entryA], .ok [entryA], .errored] 8 8 []).map
      (fun v => v.video_id)).Nodup :=
  ⟨rfl, by decide⟩

end Omega
